import Mathlib

/-!
Shallow embedding of the FITNESS-server calendar/program core
(`controllers/users.js` and the matching route files): the synthetic
workout-key codec, the program locator, the calendar upsert/dedup engine,
the non-destructive exercise-completion merge, and the journal query /
enrichment view.  JavaScript objects are modelled with explicit option
fields (absent property = `none`), JS string coercion (`String(x)`) and
truthiness are modelled explicitly, and database rows are plain Lean
structures.
-/

namespace Fitness

/-- A JSON-ish primitive value carried by the free-form fields of workout,
food and exercise objects.  Nested objects are not needed by the verified
logic (the dedup, filter and merge code only inspects primitive fields). -/
inductive Val where
  | vStr (s : String)
  | vBool (b : Bool)
  | vInt (n : Int)
  | vNull
deriving DecidableEq, Repr

/-- JS truthiness of a primitive value: `""`, `false`, `0` and `null` are
falsy, everything else is truthy. -/
def truthyVal : Val → Bool
  | .vStr s => s ≠ ""
  | .vBool b => b
  | .vInt n => n ≠ 0
  | .vNull => false

/-- JS truthiness of a possibly-absent value (`undefined` is falsy). -/
def truthyOpt : Option Val → Bool
  | none => false
  | some v => truthyVal v

/-- The digit character for `n < 10` (ASCII `'0' + n`). -/
def digitChar (n : Nat) : Char := Char.ofNat (48 + n)

/-- Fuel-indexed most-significant-first decimal digits of `n`; `fuel ≥ n`
makes the result exact.  Structural in the fuel so that it reduces inside
`decide`/`rfl` proofs. -/
def natDigitsAux : Nat → Nat → List Char
  | 0, _ => []
  | fuel + 1, n => if n = 0 then [] else natDigitsAux fuel (n / 10) ++ [digitChar (n % 10)]

/-- Decimal digit string of a natural number, as produced by JS
`String(n)` for a nonnegative integer. -/
def natChars (n : Nat) : List Char := if n = 0 then ['0'] else natDigitsAux n n

/-- Decimal character list of an integer, as produced by JS `String(n)`
(template-literal interpolation of a number). -/
def intChars (i : Int) : List Char :=
  if i < 0 then '-' :: natChars i.natAbs else natChars i.natAbs

/-- JS `String(i)` for an integer. -/
def intToString (i : Int) : String := ⟨intChars i⟩

/-- ASCII decimal digit test, as used by `parseInt`. -/
def isDigitCh (c : Char) : Bool := '0' ≤ c && c ≤ '9'

/-- Numeric value of a digit character. -/
def digitVal (c : Char) : Nat := c.toNat - 48

/-- Value of a most-significant-first digit list. -/
def digitsToNat (cs : List Char) : Nat := cs.foldl (fun a c => 10 * a + digitVal c) 0

/-- The longest leading run of decimal digits, or `none` when there is
none (`parseInt` yields `NaN` in that case). -/
def parseDigits (cs : List Char) : Option Nat :=
  match cs.takeWhile isDigitCh with
  | [] => none
  | ds => some (digitsToNat ds)

/-- JS `parseInt(s, 10)`: an optional sign followed by a longest digit
prefix; `none` models `NaN`.  (Leading whitespace never occurs in the
inputs the server feeds it.) -/
def parseIntJS (cs : List Char) : Option Int :=
  match cs with
  | '-' :: rest => (parseDigits rest).map (fun n => -(n : Int))
  | '+' :: rest => (parseDigits rest).map (fun n => (n : Int))
  | _ => (parseDigits cs).map (fun n => (n : Int))

/-- JS `s.split('-')` on a character list: splits at every `'-'`, keeping
empty components (so `"0--1"` splits into `["0", "", "1"]`). -/
def splitDash : List Char → List (List Char)
  | [] => [[]]
  | c :: rest =>
    if c = '-' then [] :: splitDash rest
    else
      match splitDash rest with
      | [] => [[c]]
      | p :: ps => (c :: p) :: ps

/-- `buildWorkoutKey(weekIndex, dayIndex, workoutIndex)`:
the synthetic key `w:<a>-<b>-<c>` (template literal over `Number(_)`s). -/
def buildWorkoutKey (weekIndex dayIndex workoutIndex : Int) : String :=
  ⟨'w' :: ':' :: (intChars weekIndex ++ '-' :: (intChars dayIndex ++ '-' :: intChars workoutIndex))⟩

/-- The decode half of the codec, as embedded in `findWorkoutByPathOrKey`:
the key must start with `w:`, the remainder must split on `-` into exactly
three components, and each component must `parseInt` to a number
(a `NaN` component can never value-match a week/day, i.e. the key is
invalid). -/
def decodeKey (s : String) : Option (Int × Int × Int) :=
  match s.data with
  | 'w' :: ':' :: rest =>
    match splitDash rest with
    | [p1, p2, p3] =>
      match parseIntJS p1, parseIntJS p2, parseIntJS p3 with
      | some a, some b, some c => some (a, b, c)
      | _, _, _ => none
    | _ => none
  | _ => none

/-- JS `String(x)` of a primitive value. -/
def jsStringVal : Val → String
  | .vStr s => s
  | .vBool true => "true"
  | .vBool false => "false"
  | .vInt n => intToString n
  | .vNull => "null"

/-- JS `String(x)` of a possibly-absent value (`String(undefined)` is
`"undefined"`). -/
def jsStringOpt : Option Val → String
  | none => "undefined"
  | some v => jsStringVal v

/-- The denormalized `programMeta` object attached to program-sourced
calendar workout records. -/
structure ProgramMetaR where
  programId : String
  workoutKey : Option String
  weekIndex : Option Int
  dayIndex : Option Int
  workoutIndex : Option Int
  planName : Option String
  event : Option String
deriving DecidableEq, Repr

/-- The `{id, name}` metadata attached at read time by the calendar
enrichment (`include=program` / `include=daily`). -/
structure MetaR where
  metaId : String
  metaName : Option String
deriving DecidableEq, Repr

/-- A workout object stored in a journal entry's `workouts` JSON sequence
(or arriving as a request payload).  Absent properties are `none`; the
named fields are the ones the server's logic reads or writes, `extra`
holds any remaining caller-supplied fields.  `programInfo`/`dailyInfo`
model the `program`/`daily` properties attached by read-time enrichment
(never stored). -/
structure WorkoutItem where
  id : Option Val
  externalId : Option Val
  source : Option Val
  nameF : Option Val
  completed : Option Val
  completedAt : Option Val
  notes : Option Val
  programMeta : Option ProgramMetaR
  programInfo : Option MetaR
  dailyInfo : Option MetaR
  extra : List (String × Val)
deriving DecidableEq, Repr

/-- A food object stored in a journal entry's `foods` JSON sequence. -/
structure FoodItem where
  id : Option Val
  extra : List (String × Val)
deriving DecidableEq, Repr

/-- One `Calendar` row for a fixed `(userId, date)` pair: the per-user
per-day journal entry, with its two JSON sequences. -/
structure CalendarEntry where
  workouts : List WorkoutItem
  foods : List FoodItem
deriving DecidableEq, Repr

/-- `const wid = workout.id || uuidv4(); const payload = {id: wid, ...workout}`:
a present `id` property survives the spread untouched (even a falsy one);
an absent `id` becomes the fresh uuid. -/
def withResolvedId (w : WorkoutItem) (fresh : String) : WorkoutItem :=
  { w with id := some (w.id.getD (Val.vStr fresh)) }

/-- The dedup test of `addWorkoutToCalendar`, applied to the new payload
and one existing record `w`:
if both `externalId`s are truthy compare `String(externalId)`s,
otherwise compare `String(id)`s. -/
def isSameEntry (payload w : WorkoutItem) : Bool :=
  if truthyOpt payload.externalId && truthyOpt w.externalId then
    jsStringOpt w.externalId == jsStringOpt payload.externalId
  else
    jsStringOpt w.id == jsStringOpt payload.id

/-- `addWorkoutToCalendar(userId, date, workout)` after the
`findOrCreate` step: `cal` is the (found or freshly created) journal
entry for the `(userId, date)` pair and `fresh` the uuid that
`uuidv4()` would mint.  Appends the payload at the end unless some
existing record passes the dedup test; a dedup hit leaves the entry
untouched. -/
def addWorkoutToCalendar (cal : CalendarEntry) (workout : WorkoutItem) (fresh : String) : CalendarEntry :=
  if cal.workouts.any (fun w => isSameEntry (withResolvedId workout fresh) w) then cal
  else { cal with workouts := cal.workouts ++ [withResolvedId workout fresh] }

/-- The food-append route (`POST /:id/calendar/foods` and
`POST /:id/calendar/:date/foods`): assigns an id the same way
(`{id: food.id || uuidv4(), ...food}`) and then appends unconditionally —
there is no dedup test on foods. -/
def addFoodToCalendar (cal : CalendarEntry) (food : FoodItem) (fresh : String) : CalendarEntry :=
  let withId : FoodItem := { food with id := some (food.id.getD (Val.vStr fresh)) }
  { cal with foods := cal.foods ++ [withId] }

/-- An exercise object inside a program document: a JS object seen as a
field map (lookup-extensional; `getField` is property access). -/
abbrev Obj := List (String × Val)

/-- Property access `o[k]` (`none` = absent/`undefined`). -/
def getField (o : Obj) (k : String) : Option Val :=
  (o.find? (fun p => p.1 == k)).map (fun p => p.2)

/-- The object `{...o, k: v}`: every other property keeps its value, `k`
becomes `v`. -/
def setField (o : Obj) (k : String) (v : Val) : Obj :=
  o.filter (fun p => !(p.1 == k)) ++ [(k, v)]

/-- The object `{...o, k: undefined}`: for property reads this behaves
like removing `k`. -/
def removeField (o : Obj) (k : String) : Obj :=
  o.filter (fun p => !(p.1 == k))

/-- Set a property to a possibly-`undefined` value. -/
def setFieldOpt (o : Obj) (k : String) : Option Val → Obj
  | none => removeField o k
  | some v => setField o k v

/-- A `Day` object of a program document: `dayIndex` (absent or
non-numeric modelled as `none`, which can never value-match) and the
`workouts` exercise sequence (`none` when it is not an array). -/
structure DayObj where
  dayIndex : Option Int
  workouts : Option (List Obj)
deriving DecidableEq, Repr

/-- A `Week` object of a program document. -/
structure WeekObj where
  weekIndex : Option Int
  days : Option (List DayObj)
deriving DecidableEq, Repr

/-- The argument object of `findWorkoutByPathOrKey`: explicit indices
(`none` = absent or non-numeric, i.e. `Number(_)` is `NaN`) and/or a
synthetic key. -/
structure LocatorArgs where
  weekIndex : Option Int
  dayIndex : Option Int
  workoutIndex : Option Int
  workoutId : Option String
deriving DecidableEq, Repr

/-- The success result of `findWorkoutByPathOrKey`: references to the
matched week, day and exercise, the three resolved indices, and the
canonical re-encoded key. -/
structure Located where
  week : WeekObj
  day : DayObj
  workout : Obj
  weekIndex : Int
  dayIndex : Int
  workoutIndex : Int
  workoutId : String
deriving DecidableEq, Repr

/-- `Number(a) === Number(b)` for possibly-`NaN` operands: `NaN` is never
equal to anything, including itself. -/
def numEq (a b : Option Int) : Bool :=
  match a, b with
  | some x, some y => x == y
  | _, _ => false

/-- The synthetic-id parsing step at the top of `findWorkoutByPathOrKey`:
when `workoutId` is a string starting with `w:` whose remainder splits on
`-` into exactly three parts, the `parseInt`s of those parts override all
three explicit indices; otherwise the explicit indices are used. -/
def resolveIndices (args : LocatorArgs) : Option Int × Option Int × Option Int :=
  let explicit := (args.weekIndex, args.dayIndex, args.workoutIndex)
  match args.workoutId with
  | none => explicit
  | some s =>
    match s.data with
    | 'w' :: ':' :: rest =>
      match splitDash rest with
      | [p1, p2, p3] => (parseIntJS p1, parseIntJS p2, parseIntJS p3)
      | _ => explicit
    | _ => explicit

/-- JS array subscript `ws[Number(i)]`: `undefined` for `NaN`, negative
or out-of-range indices. -/
def jsIndex (ws : List Obj) : Option Int → Option Obj
  | none => none
  | some i => if i < 0 then none else ws.get? i.toNat

/-- `findWorkoutByPathOrKey(programJson, {weekIndex, dayIndex,
workoutIndex, workoutId})`: `none` models the JS `null` result.
`programJson = none` models a non-array program.  Week and day are found
by value match on their index fields (first match wins), the exercise by
position. -/
def findWorkoutByPathOrKey (programJson : Option (List WeekObj)) (args : LocatorArgs) : Option Located :=
  match programJson with
  | none => none
  | some weeks =>
    match weeks.find? (fun wk => numEq wk.weekIndex (resolveIndices args).1) with
    | none => none
    | some week =>
      match week.days with
      | none => none
      | some days =>
        match days.find? (fun d => numEq d.dayIndex (resolveIndices args).2.1) with
        | none => none
        | some day =>
          match day.workouts with
          | none => none
          | some ws =>
            match jsIndex ws (resolveIndices args).2.2 with
            | none => none
            | some w =>
              match (resolveIndices args).1, (resolveIndices args).2.1, (resolveIndices args).2.2 with
              | some a, some b, some c =>
                some { week := week, day := day, workout := w,
                       weekIndex := a, dayIndex := b, workoutIndex := c,
                       workoutId := buildWorkoutKey a b c }
              | _, _, _ => none

/-- The spec's enumeration of the `NotFound` cases of the locator, stated
over the resolved indices: the program is not a sequence, or no week
value-matches the week index, or the (first) matched week has no day
sequence, or no day value-matches the day index, or the matched day has
no exercise sequence, or the workout position is out of bounds (absent /
`NaN`, negative, or at least the sequence length). -/
def locateNotFound (programJson : Option (List WeekObj)) (args : LocatorArgs) : Prop :=
  match programJson with
  | none => True
  | some weeks =>
    (∀ wk ∈ weeks, numEq wk.weekIndex (resolveIndices args).1 = false) ∨
    ∃ week, weeks.find? (fun wk => numEq wk.weekIndex (resolveIndices args).1) = some week ∧
      (week.days = none ∨
        ∃ days, week.days = some days ∧
          ((∀ d ∈ days, numEq d.dayIndex (resolveIndices args).2.1 = false) ∨
            ∃ day, days.find? (fun d => numEq d.dayIndex (resolveIndices args).2.1) = some day ∧
              (day.workouts = none ∨
                ∃ ws, day.workouts = some ws ∧
                  ((resolveIndices args).2.2 = none ∨
                    ∃ i, (resolveIndices args).2.2 = some i ∧
                      (i < 0 ∨ ws.length ≤ i.toNat)))))

/-- JS `a || b` over possibly-absent values. -/
def jsOr (a b : Option Val) : Option Val :=
  if truthyOpt a then a else b

/-- The in-place completion merge of `POST /:id/program/complete`
(`dayRef.workouts[idx] = {...original, completed: true, lastCompletedAt:
iso, lastCompletedDate: effectiveDate, completionNotes: notes ||
original.completionNotes}`): the union of all previous fields with the
four completion fields overwritten. -/
def completeMergeExercise (original : Obj) (nowIso effectiveDate : String) (notes : Option Val) : Obj :=
  let o1 := setField original "completed" (Val.vBool true)
  let o2 := setField o1 "lastCompletedAt" (Val.vStr nowIso)
  let o3 := setField o2 "lastCompletedDate" (Val.vStr effectiveDate)
  setFieldOpt o3 "completionNotes" (jsOr notes (getField original "completionNotes"))

/-- The journal correlation id built by the complete route:
`program:<programId>:workout:<key>:date:<effectiveDate>`. -/
def correlationId (programId stableId effectiveDate : String) : String :=
  "program:" ++ programId ++ ":workout:" ++ stableId ++ ":date:" ++ effectiveDate

/-- The `calendarPayload` the complete route hands to
`addWorkoutToCalendar`: program-sourced, carrying the correlation id as
`externalId`, the denormalized location metadata, `completed: true`, the
completion timestamp and the (truthy) notes. -/
def completeCalendarPayload (programId stableId effectiveDate : String)
    (wIdx dIdx xIdx : Int) (origName : Option Val) (nowIso : String)
    (notes : Option Val) : WorkoutItem :=
  { id := none,
    externalId := some (Val.vStr (correlationId programId stableId effectiveDate)),
    source := some (Val.vStr "program"),
    nameF := jsOr origName (some (Val.vStr ("Program Workout " ++ stableId))),
    completed := some (Val.vBool true),
    completedAt := some (Val.vStr nowIso),
    notes := if truthyOpt notes then notes else none,
    programMeta := some { programId := programId, workoutKey := some stableId,
                          weekIndex := some wIdx, dayIndex := some dIdx,
                          workoutIndex := some xIdx, planName := none, event := none },
    programInfo := none, dailyInfo := none, extra := [] }

/-- A calendar date (`DATEONLY`, stored as zero-padded `YYYY-MM-DD`;
lexicographic string comparison on that format is exactly the
year/month/day lexicographic order below). -/
structure DateD where
  year : Int
  month : Nat
  day : Nat
deriving DecidableEq, Repr

/-- Date comparison, `a ≤ b` (the order the `BETWEEN` bounds and the
`ORDER BY date ASC` clause use). -/
def dateLe (a b : DateD) : Bool :=
  a.year < b.year ||
    (a.year == b.year && (a.month < b.month ||
      (a.month == b.month && a.day ≤ b.day)))

/-- Gregorian leap-year rule (as implemented by the JS `Date` object). -/
def isLeapYear (y : Int) : Bool :=
  (y % 4 == 0 && y % 100 != 0) || y % 400 == 0

/-- `new Date(year, month, 0).getDate()` for a 1-based `month`: the
number of days in that calendar month. -/
def daysInMonth (y : Int) (m : Nat) : Nat :=
  match m with
  | 2 => if isLeapYear y then 29 else 28
  | 4 => 30
  | 6 => 30
  | 9 => 30
  | 11 => 30
  | _ => 31

/-- The resolved `where.date` clause of the calendar query. -/
inductive DateWhere where
  | exact (d : DateD)
  | between (lo hi : DateD)
deriving DecidableEq, Repr

/-- Whether a stored date satisfies the clause (`BETWEEN` is
inclusive on both bounds). -/
def matchesWhere : DateWhere → DateD → Bool
  | .exact e, d => d == e
  | .between lo hi, d => dateLe lo d && dateLe d hi

/-- The query-string selector of `GET /:id/calendar` (absent parameters
are `none`) together with its option flags. -/
structure JournalQuery where
  dateQ : Option DateD
  fromQ : Option DateD
  toQ : Option DateD
  monthQ : Option Nat
  yearQ : Option Int
  onlyCompleted : Bool
  includeProgram : Bool
  includeDaily : Bool
  includeFlags : Bool
deriving DecidableEq, Repr

/-- Selector resolution, in the route's priority order: explicit `date`,
then `from`/`to` (both required), then `month`/`year` (first through last
calendar day of that month), else the current calendar month of the
server-local `today`. -/
def resolveDateWhere (q : JournalQuery) (today : DateD) : DateWhere :=
  match q.dateQ with
  | some d => .exact d
  | none =>
    match q.fromQ, q.toQ with
    | some f, some t => .between f t
    | _, _ =>
      match q.monthQ, q.yearQ with
      | some m, some y => .between ⟨y, m, 1⟩ ⟨y, m, daysInMonth y m⟩
      | _, _ =>
        .between ⟨today.year, today.month, 1⟩
          ⟨today.year, today.month, daysInMonth today.year today.month⟩

/-- One persisted `Calendar` row of the queried user. -/
structure CalendarRow where
  date : DateD
  workouts : List WorkoutItem
  foods : List FoodItem
deriving DecidableEq, Repr

/-- The per-day boolean flags attached when `include` contains `flags`. -/
structure FlagsR where
  hasDaily : Bool
  hasProgram : Bool
  hasFood : Bool
deriving DecidableEq, Repr

/-- An enriched calendar row as returned by the route. -/
structure EnrichedRow where
  date : DateD
  workouts : List WorkoutItem
  foods : List FoodItem
  flags : Option FlagsR
deriving DecidableEq, Repr

/-- Insert a row into a date-sorted list (the `ORDER BY date ASC` of
`findAll`, modelled as an insertion sort). -/
def insertByDate (r : CalendarRow) : List CalendarRow → List CalendarRow
  | [] => [r]
  | x :: xs => if dateLe r.date x.date then r :: x :: xs else x :: insertByDate r xs

/-- Sort rows by date ascending. -/
def sortByDate : List CalendarRow → List CalendarRow
  | [] => []
  | x :: xs => insertByDate x (sortByDate xs)

/-- The per-workout enrichment step: attach `{...w, program: programMeta}`
to program-sourced records (when requested and available), else
`{...w, daily: dailyMeta}` to daily-sourced records. -/
def enrichWorkout (includeProgram includeDaily : Bool) (pm dm : Option MetaR) (w : WorkoutItem) : WorkoutItem :=
  if includeProgram && w.source == some (Val.vStr "program") && pm.isSome then
    { w with programInfo := pm }
  else if includeDaily && w.source == some (Val.vStr "daily") && dm.isSome then
    { w with dailyInfo := dm }
  else w

/-- The per-row transform of `GET /:id/calendar`: flags are computed from
the unfiltered `workouts`/`foods`, then `onlyCompleted` filters the
workouts to `completed === true`, then the enrichment map runs, and
`flags` is attached only when requested. -/
def enrichEntry (q : JournalQuery) (pm dm : Option MetaR) (row : CalendarRow) : EnrichedRow :=
  let hasDaily := row.workouts.any (fun w => w.source == some (Val.vStr "daily"))
  let hasProgram := row.workouts.any (fun w => w.source == some (Val.vStr "program"))
  let ws0 := row.workouts
  let ws1 := if q.onlyCompleted then ws0.filter (fun w => w.completed == some (Val.vBool true)) else ws0
  let ws2 := ws1.map (enrichWorkout q.includeProgram q.includeDaily pm dm)
  { date := row.date, workouts := ws2, foods := row.foods,
    flags := if q.includeFlags then
        some { hasDaily := hasDaily, hasProgram := hasProgram,
               hasFood := decide (0 < row.foods.length) }
      else none }

/-- `GET /:id/calendar` over the queried user's stored rows: resolve the
selector, filter, order by date ascending, and enrich each row.  `pm`/`dm`
are the once-per-query program/daily metadata fetches. -/
def queryJournal (store : List CalendarRow) (q : JournalQuery) (today : DateD) (pm dm : Option MetaR) : List EnrichedRow :=
  let wf := resolveDateWhere q today
  let rows := sortByDate (store.filter (fun r => matchesWhere wf r.date))
  rows.map (enrichEntry q pm dm)

/-! Concrete sample data used to instantiate the theorems below. -/

/-- A workout object with every property absent. -/
def blankWorkout : WorkoutItem :=
  { id := none, externalId := none, source := none, nameF := none,
    completed := none, completedAt := none, notes := none,
    programMeta := none, programInfo := none, dailyInfo := none, extra := [] }

/-- The journal entry freshly created by `findOrCreate` (both sequences
empty). -/
def emptyEntry : CalendarEntry := { workouts := [], foods := [] }

/-- `{id: "w1", source: "daily"}`. -/
def sampleDaily : WorkoutItem :=
  { blankWorkout with id := some (Val.vStr "w1"), source := some (Val.vStr "daily") }

/-- `{id: "w2", source: "manual"}`. -/
def sampleManual : WorkoutItem :=
  { blankWorkout with id := some (Val.vStr "w2"), source := some (Val.vStr "manual") }

/-- An already-stored record carrying externalId `ext-a` and id `x`. -/
def storedExtA : WorkoutItem :=
  { blankWorkout with id := some (Val.vStr "x"), externalId := some (Val.vStr "ext-a") }

/-- An incoming item carrying externalId `ext-b` and the same id `x`. -/
def incomingExtB : WorkoutItem :=
  { blankWorkout with id := some (Val.vStr "x"), externalId := some (Val.vStr "ext-b") }

/-- A stored food record with id `f1`. -/
def sampleFood : FoodItem := { id := some (Val.vStr "f1"), extra := [("calories", Val.vInt 250)] }

/-- The Scenario-C program: one week `{weekIndex: 0}` with one day
`{dayIndex: 1}` holding the single exercise `{name: "Squats"}`. -/
def squatsExercise : Obj := [("name", Val.vStr "Squats")]

/-- The day object of the sample program. -/
def squatsDay : DayObj := { dayIndex := some 1, workouts := some [squatsExercise] }

/-- The week object of the sample program. -/
def squatsWeek : WeekObj := { weekIndex := some 0, days := some [squatsDay] }

/-- The sample program document's `workouts` JSON. -/
def squatsProgram : Option (List WeekObj) := some [squatsWeek]

/-- Locator arguments carrying only the synthetic key `w:0-1-0`. -/
def squatsArgs : LocatorArgs :=
  { weekIndex := none, dayIndex := none, workoutIndex := none, workoutId := some "w:0-1-0" }

/-- The located result for the sample program and key. -/
def squatsLocated : Located :=
  { week := squatsWeek, day := squatsDay, workout := squatsExercise,
    weekIndex := 0, dayIndex := 1, workoutIndex := 0,
    workoutId := buildWorkoutKey 0 1 0 }

/-- A calendar row on 2024-03-05 with one completed daily workout, one
incomplete program workout, and one food. -/
def sampleRowMar5 : CalendarRow :=
  { date := ⟨2024, 3, 5⟩,
    workouts :=
      [{ sampleDaily with completed := some (Val.vBool true) },
       { blankWorkout with id := some (Val.vStr "w3"), source := some (Val.vStr "program"),
                           completed := some (Val.vBool false) }],
    foods := [sampleFood] }

/-- A workout-free calendar row on 2024-03-02. -/
def sampleRowMar2 : CalendarRow :=
  { date := ⟨2024, 3, 2⟩, workouts := [sampleManual], foods := [] }

/-- A calendar row outside March 2024. -/
def sampleRowApr1 : CalendarRow :=
  { date := ⟨2024, 4, 1⟩, workouts := [sampleDaily], foods := [] }

/-- A three-row store used by the query witnesses. -/
def sampleStore : List CalendarRow := [sampleRowMar5, sampleRowMar2, sampleRowApr1]

/-- A month/year query for March 2024 asking for flags. -/
def sampleQueryMarch : JournalQuery :=
  { dateQ := none, fromQ := none, toQ := none, monthQ := some 3, yearQ := some 2024,
    onlyCompleted := false, includeProgram := false, includeDaily := false,
    includeFlags := true }

/-! ### Helper lemmas: the decimal printer/parser round trip -/

theorem digitsToNat_append (xs : List Char) (d : Char) :
    digitsToNat (xs ++ [d]) = 10 * digitsToNat xs + digitVal d := by
  simp [digitsToNat, List.foldl_append]

theorem digitVal_digitChar : ∀ m, m < 10 → digitVal (digitChar m) = m := by decide

theorem isDigitCh_digitChar : ∀ m, m < 10 → isDigitCh (digitChar m) = true := by decide

theorem isDigitCh_ne_dash (c : Char) (h : isDigitCh c = true) : c ≠ '-' := by
  intro hc
  subst hc
  simp [isDigitCh] at h

theorem isDigitCh_ne_plus (c : Char) (h : isDigitCh c = true) : c ≠ '+' := by
  intro hc
  subst hc
  simp [isDigitCh] at h

theorem natDigitsAux_digits : ∀ fuel n, ∀ c ∈ natDigitsAux fuel n, isDigitCh c = true := by
  intro fuel
  induction fuel with
  | zero => intro n c hc; simp [natDigitsAux] at hc
  | succ fuel ih =>
    intro n c hc
    by_cases hn : n = 0
    · simp [natDigitsAux, hn] at hc
    · simp only [natDigitsAux, if_neg hn, List.mem_append, List.mem_singleton] at hc
      rcases hc with hc | hc
      · exact ih _ c hc
      · subst hc
        exact isDigitCh_digitChar _ (Nat.mod_lt _ (by omega))

theorem natDigitsAux_val : ∀ fuel n, n ≤ fuel → digitsToNat (natDigitsAux fuel n) = n := by
  intro fuel
  induction fuel with
  | zero =>
    intro n hn
    have : n = 0 := by omega
    simp [natDigitsAux, this, digitsToNat]
  | succ fuel ih =>
    intro n hn
    by_cases h0 : n = 0
    · simp [natDigitsAux, h0, digitsToNat]
    · have hdiv : n / 10 ≤ fuel := by
        have := Nat.div_lt_self (Nat.pos_of_ne_zero h0) (by omega : 1 < 10)
        omega
      simp only [natDigitsAux, if_neg h0, digitsToNat_append, ih _ hdiv,
        digitVal_digitChar _ (Nat.mod_lt _ (by omega))]
      omega

theorem natChars_digits (n : Nat) : ∀ c ∈ natChars n, isDigitCh c = true := by
  intro c hc
  by_cases h0 : n = 0
  · simp [natChars, h0] at hc
    subst hc
    decide
  · simp only [natChars, if_neg h0] at hc
    exact natDigitsAux_digits n n c hc

theorem natChars_val (n : Nat) : digitsToNat (natChars n) = n := by
  by_cases h0 : n = 0
  · simp [natChars, h0, digitsToNat, digitVal]
  · simp only [natChars, if_neg h0]
    exact natDigitsAux_val n n le_rfl

theorem natChars_ne_nil (n : Nat) : natChars n ≠ [] := by
  by_cases h0 : n = 0
  · simp [natChars, h0]
  · simp only [natChars, if_neg h0]
    intro hmt
    have := natDigitsAux_val n n le_rfl
    rw [hmt] at this
    simp [digitsToNat] at this
    omega

theorem takeWhile_all {p : Char → Bool} : ∀ cs : List Char, (∀ c ∈ cs, p c = true) →
    cs.takeWhile p = cs := by
  intro cs
  induction cs with
  | nil => intro _; rfl
  | cons c rest ih =>
    intro h
    have hc : p c = true := h c (by simp)
    simp [List.takeWhile, hc, ih (fun d hd => h d (by simp [hd]))]

theorem parseIntJS_digits (cs : List Char) (hne : cs ≠ [])
    (h : ∀ c ∈ cs, isDigitCh c = true) :
    parseIntJS cs = some ((digitsToNat cs : Nat) : Int) := by
  match cs, hne with
  | c :: rest, _ =>
    have hc : isDigitCh c = true := h c (by simp)
    have hdash := isDigitCh_ne_dash c hc
    have hplus := isDigitCh_ne_plus c hc
    have hparse : parseDigits (c :: rest) = some (digitsToNat (c :: rest)) := by
      unfold parseDigits
      rw [takeWhile_all (c :: rest) h]
    unfold parseIntJS
    split
    · simp_all
    · simp_all
    · rw [hparse]
      rfl

theorem splitDash_no_dash : ∀ xs : List Char, (∀ c ∈ xs, c ≠ '-') →
    splitDash xs = [xs] := by
  intro xs
  induction xs with
  | nil => intro _; rfl
  | cons c rest ih =>
    intro h
    have hc : c ≠ '-' := h c (by simp)
    simp only [splitDash, if_neg hc, ih (fun d hd => h d (by simp [hd]))]

theorem splitDash_append : ∀ xs ys : List Char, (∀ c ∈ xs, c ≠ '-') →
    splitDash (xs ++ '-' :: ys) = xs :: splitDash ys := by
  intro xs ys
  induction xs with
  | nil =>
    intro _
    simp [splitDash]
  | cons c rest ih =>
    intro h
    have hc : c ≠ '-' := h c (by simp)
    have ihr := ih (fun d hd => h d (by simp [hd]))
    simp only [List.cons_append, splitDash, if_neg hc]
    rw [show rest.append ('-' :: ys) = rest ++ '-' :: ys from rfl, ihr]

theorem decodeKey_mk (rest : List Char) :
    decodeKey ⟨'w' :: ':' :: rest⟩ =
      (match splitDash rest with
      | [p1, p2, p3] =>
        match parseIntJS p1, parseIntJS p2, parseIntJS p3 with
        | some a, some b, some c => some (a, b, c)
        | _, _, _ => none
      | _ => none) := rfl

theorem natChars_no_dash (n : Nat) : ∀ ch ∈ natChars n, ch ≠ '-' :=
  fun ch hch => isDigitCh_ne_dash ch (natChars_digits n ch hch)

theorem parseIntJS_natChars (n : Nat) : parseIntJS (natChars n) = some (n : Int) := by
  rw [parseIntJS_digits (natChars n) (natChars_ne_nil n) (natChars_digits n), natChars_val]

/-- C2 (amended): the decode embedded in `findWorkoutByPathOrKey` inverts
`buildWorkoutKey` for all *nonnegative* integer triples. -/
theorem decodeKey_buildWorkoutKey_roundTrip (a b c : Int)
    (ha : 0 ≤ a) (hb : 0 ≤ b) (hc : 0 ≤ c) :
    decodeKey (buildWorkoutKey a b c) = some (a, b, c) := by
  have hkey : buildWorkoutKey a b c =
      ⟨'w' :: ':' :: (natChars a.natAbs ++ '-' :: (natChars b.natAbs ++ '-' :: natChars c.natAbs))⟩ := by
    simp [buildWorkoutKey, intChars, not_lt.mpr ha, not_lt.mpr hb, not_lt.mpr hc]
  rw [hkey, decodeKey_mk]
  rw [splitDash_append _ _ (natChars_no_dash a.natAbs)]
  rw [splitDash_append _ _ (natChars_no_dash b.natAbs)]
  rw [splitDash_no_dash _ (natChars_no_dash c.natAbs)]
  show (match parseIntJS (natChars a.natAbs), parseIntJS (natChars b.natAbs),
      parseIntJS (natChars c.natAbs) with
    | some x, some y, some z => some (x, y, z)
    | _, _, _ => none) = some (a, b, c)
  rw [parseIntJS_natChars, parseIntJS_natChars, parseIntJS_natChars]
  simp [Int.natAbs_of_nonneg, ha, hb, hc]

/-- C2 (counterexample): for the negative week index `-1` the encoded key
is `w:-1-0-0`, whose remainder splits into four components, so decoding
does not recover the triple. -/
theorem decodeKey_fails_on_negative :
    decodeKey (buildWorkoutKey (-1) 0 0) ≠ some ((-1 : Int), 0, 0) := by decide

/-- C2 (witness): the round trip evaluated at the concrete nonnegative
triple `(3, 5, 7)`. -/
theorem decodeKey_buildWorkoutKey_roundTrip_witness :
    decodeKey (buildWorkoutKey 3 5 7) = some (3, 5, 7) :=
  decodeKey_buildWorkoutKey_roundTrip 3 5 7 (by decide) (by decide) (by decide)

/-! ### Helper lemmas: the calendar dedup engine -/

theorem isSameEntry_self (p : WorkoutItem) : isSameEntry p p = true := by
  unfold isSameEntry
  by_cases h : truthyOpt p.externalId
  · simp [h]
  · simp [h]

theorem isSameEntry_resolved_same (item : WorkoutItem) (f1 f2 : String)
    (hkey : truthyOpt item.externalId = true ∨ item.id.isSome = true ∨ f1 = f2) :
    isSameEntry (withResolvedId item f2) (withResolvedId item f1) = true := by
  rcases hkey with h | h | h
  · simp [isSameEntry, withResolvedId, h]
  · match hid : item.id, h with
    | some v, _ =>
      unfold isSameEntry withResolvedId
      by_cases hext : truthyOpt item.externalId
      · simp [hext]
      · simp [hext, hid]
  · subst h
    exact isSameEntry_self _

/-- C1: the two-tier dedup rule of `addWorkoutToCalendar` and its
idempotence.  First conjunct: two records are the same entry iff both
carry a truthy (non-empty) `externalId` and those coerce to the same
string, else iff their `id`s coerce to the same string.  Under the
hypotheses that the two calls share a dedup key (same `externalId`, or a
present `id`, or the same generated id) and that no record of the entry
already matches, the second call returns the journal entry of the first
call unmodified and exactly one matching record exists afterwards. -/
theorem addWorkout_idempotent (cal : CalendarEntry) (item : WorkoutItem) (f1 f2 : String)
    (hkey : truthyOpt item.externalId = true ∨ item.id.isSome = true ∨ f1 = f2)
    (hnew : ∀ w ∈ cal.workouts, isSameEntry (withResolvedId item f1) w = false ∧
      isSameEntry (withResolvedId item f2) w = false) :
    (∀ p w : WorkoutItem, isSameEntry p w = true ↔
      ((truthyOpt p.externalId = true ∧ truthyOpt w.externalId = true ∧
          jsStringOpt p.externalId = jsStringOpt w.externalId) ∨
        (¬(truthyOpt p.externalId = true ∧ truthyOpt w.externalId = true) ∧
          jsStringOpt p.id = jsStringOpt w.id))) ∧
    addWorkoutToCalendar (addWorkoutToCalendar cal item f1) item f2
      = addWorkoutToCalendar cal item f1 ∧
    ((addWorkoutToCalendar (addWorkoutToCalendar cal item f1) item f2).workouts.countP
      (fun w => isSameEntry (withResolvedId item f2) w)) = 1 := by
  have hchar : ∀ p w : WorkoutItem, isSameEntry p w = true ↔
      ((truthyOpt p.externalId = true ∧ truthyOpt w.externalId = true ∧
          jsStringOpt p.externalId = jsStringOpt w.externalId) ∨
        (¬(truthyOpt p.externalId = true ∧ truthyOpt w.externalId = true) ∧
          jsStringOpt p.id = jsStringOpt w.id)) := by
    intro p w
    unfold isSameEntry
    by_cases h : truthyOpt p.externalId && truthyOpt w.externalId
    · rw [if_pos h]
      simp only [Bool.and_eq_true] at h
      simp only [beq_iff_eq]
      constructor
      · intro hh
        exact Or.inl ⟨h.1, h.2, hh.symm⟩
      · intro hh
        rcases hh with ⟨_, _, hh⟩ | ⟨hcon, _⟩
        · exact hh.symm
        · exact absurd h hcon
    · rw [if_neg h]
      simp only [Bool.and_eq_true] at h
      simp only [beq_iff_eq]
      constructor
      · intro hh
        exact Or.inr ⟨h, hh.symm⟩
      · intro hh
        rcases hh with ⟨h1, h2, _⟩ | ⟨_, hh⟩
        · exact absurd ⟨h1, h2⟩ h
        · exact hh.symm
  have hany1 : cal.workouts.any (fun w => isSameEntry (withResolvedId item f1) w) = false := by
    simp only [List.any_eq_false]
    intro w hw
    simp [(hnew w hw).1]
  have hfirst : addWorkoutToCalendar cal item f1
      = { cal with workouts := cal.workouts ++ [withResolvedId item f1] } := by
    unfold addWorkoutToCalendar
    rw [hany1]
    rfl
  have hmatch := isSameEntry_resolved_same item f1 f2 hkey
  have hany2 : (cal.workouts ++ [withResolvedId item f1]).any
      (fun w => isSameEntry (withResolvedId item f2) w) = true := by
    simp only [List.any_append, List.any_cons, List.any_nil, hmatch]
    simp
  have hsecond : addWorkoutToCalendar { cal with workouts := cal.workouts ++ [withResolvedId item f1] } item f2
      = { cal with workouts := cal.workouts ++ [withResolvedId item f1] } := by
    unfold addWorkoutToCalendar
    rw [show ({ cal with workouts := cal.workouts ++ [withResolvedId item f1] } : CalendarEntry).workouts
      = cal.workouts ++ [withResolvedId item f1] from rfl, hany2]
    simp
  refine ⟨hchar, ?_, ?_⟩
  · rw [hfirst, hsecond]
  · rw [hfirst, hsecond]
    show (cal.workouts ++ [withResolvedId item f1]).countP
      (fun w => isSameEntry (withResolvedId item f2) w) = 1
    rw [List.countP_append]
    have h0 : cal.workouts.countP (fun w => isSameEntry (withResolvedId item f2) w) = 0 := by
      rw [List.countP_eq_zero]
      intro w hw
      simp [(hnew w hw).2]
    rw [h0]
    simp [List.countP_cons, hmatch]

/-- C1 (witness): replaying `{id: "w1", source: "daily"}` on an empty
journal entry leaves it unchanged. -/
theorem addWorkout_idempotent_witness :
    addWorkoutToCalendar (addWorkoutToCalendar emptyEntry sampleDaily "u1") sampleDaily "u2"
      = addWorkoutToCalendar emptyEntry sampleDaily "u1" :=
  (addWorkout_idempotent emptyEntry sampleDaily "u1" "u2"
    (Or.inr (Or.inl (by decide)))
    (by intro w hw; simp [emptyEntry] at hw)).2.1

/-- C9: two appends with no dedup collision yield `workouts = [I1, I2]`
(arrival order). -/
theorem addWorkout_order_preserved (i1 i2 : WorkoutItem) (f1 f2 : String)
    (h : isSameEntry (withResolvedId i2 f2) (withResolvedId i1 f1) = false) :
    (addWorkoutToCalendar (addWorkoutToCalendar emptyEntry i1 f1) i2 f2).workouts
      = [withResolvedId i1 f1, withResolvedId i2 f2] := by
  have hfirst : addWorkoutToCalendar emptyEntry i1 f1
      = { emptyEntry with workouts := [withResolvedId i1 f1] } := by
    unfold addWorkoutToCalendar emptyEntry
    simp
  rw [hfirst]
  unfold addWorkoutToCalendar
  simp [h]

/-- C9 (witness): appending `{id: "w1", source: "daily"}` then
`{id: "w2", source: "manual"}` to a fresh entry yields exactly those two
records in arrival order. -/
theorem addWorkout_order_preserved_witness :
    (addWorkoutToCalendar (addWorkoutToCalendar emptyEntry sampleDaily "u1") sampleManual "u2").workouts
      = [withResolvedId sampleDaily "u1", withResolvedId sampleManual "u2"] :=
  addWorkout_order_preserved sampleDaily sampleManual "u1" "u2" (by decide)

/-- C10: when the incoming item and an existing record both carry truthy
`externalId`s that differ, the pair is never a match (ids are not
consulted), the item is appended, and if the ids happen to coincide the
journal then holds two records with the same id. -/
theorem dedup_ignores_id_on_differing_externalIds (w item : WorkoutItem)
    (fds : List FoodItem) (f : String)
    (hpe : truthyOpt item.externalId = true)
    (hwe : truthyOpt w.externalId = true)
    (hne : jsStringOpt w.externalId ≠ jsStringOpt item.externalId) :
    isSameEntry (withResolvedId item f) w = false ∧
    (addWorkoutToCalendar ⟨[w], fds⟩ item f).workouts = [w, withResolvedId item f] ∧
    (jsStringOpt (withResolvedId item f).id = jsStringOpt w.id →
      (addWorkoutToCalendar ⟨[w], fds⟩ item f).workouts.countP
        (fun r => jsStringOpt r.id == jsStringOpt w.id) = 2) := by
  have hnomatch : isSameEntry (withResolvedId item f) w = false := by
    unfold isSameEntry
    rw [if_pos (by simp [withResolvedId, hpe, hwe])]
    simp only [withResolvedId]
    exact beq_eq_false_iff_ne.mpr hne
  have happ : (addWorkoutToCalendar ⟨[w], fds⟩ item f).workouts = [w, withResolvedId item f] := by
    unfold addWorkoutToCalendar
    simp [hnomatch]
  refine ⟨hnomatch, happ, ?_⟩
  intro hid
  rw [happ]
  simp [List.countP_cons, hid]

/-- C10 (witness): a stored record `{id: "x", externalId: "ext-a"}` and
an incoming `{id: "x", externalId: "ext-b"}` end up as two records with
the same id `x`. -/
theorem dedup_ignores_id_witness :
    (addWorkoutToCalendar ⟨[storedExtA], []⟩ incomingExtB "u3").workouts.countP
      (fun r => jsStringOpt r.id == jsStringOpt storedExtA.id) = 2 :=
  (dedup_ignores_id_on_differing_externalIds storedExtA incomingExtB [] "u3"
    (by decide) (by decide) (by decide)).2.2 (by decide)

/-! ### Food append: no dedup -/

/-- C8 (counterexample): adding a food whose id `f1` already exists in
the day's `foods` sequence produces a second record with id `f1` — the
food route has no dedup test. -/
theorem addFood_duplicate_cex :
    (addFoodToCalendar { workouts := [], foods := [sampleFood] } sampleFood "u9").foods.countP
      (fun f => f.id == some (Val.vStr "f1")) = 2 := by decide

/-- C8 (amended): the food-append routes assign an id the same way as
workouts but append unconditionally, so a food whose id matches an
existing record still produces a new (duplicate) record at the end of the
sequence. -/
theorem addFood_appends_unconditionally (cal : CalendarEntry) (food : FoodItem) (fresh : String) :
    (addFoodToCalendar cal food fresh).foods
      = cal.foods ++ [{ food with id := some (food.id.getD (Val.vStr fresh)) }] := rfl

/-! ### Helper lemmas: object field access -/

theorem find?_filter_ne (o : Obj) (k k' : String) (h : k' ≠ k) :
    (o.filter (fun p => !(p.1 == k))).find? (fun p => p.1 == k')
      = o.find? (fun p => p.1 == k') := by
  induction o with
  | nil => rfl
  | cons a rest ih =>
    by_cases ha : a.1 = k
    · rw [List.filter_cons, if_neg (by simp [ha]), List.find?_cons, ih]
      have : (a.1 == k') = false := by simp [ha, Ne.symm h]
      rw [this]
    · rw [List.filter_cons, if_pos (by simp [ha])]
      by_cases ha' : a.1 = k'
      · rw [List.find?_cons, List.find?_cons]
        simp [ha']
      · rw [List.find?_cons, List.find?_cons]
        have : (a.1 == k') = false := by simp [ha']
        rw [this, ih]

theorem find?_filter_same (o : Obj) (k : String) :
    (o.filter (fun p => !(p.1 == k))).find? (fun p => p.1 == k) = none := by
  rw [List.find?_eq_none]
  intro p hp
  have := List.of_mem_filter hp
  simp at this
  simp [this]

theorem getField_setField_same (o : Obj) (k : String) (v : Val) :
    getField (setField o k v) k = some v := by
  unfold getField setField
  rw [List.find?_append, find?_filter_same]
  simp

theorem getField_setField_other (o : Obj) (k k' : String) (v : Val) (h : k' ≠ k) :
    getField (setField o k v) k' = getField o k' := by
  unfold getField setField
  rw [List.find?_append, find?_filter_ne o k k' h]
  cases hfo : o.find? (fun p => p.1 == k') with
  | some p => rfl
  | none =>
    simp only [Option.none_orElse, List.find?_cons, List.find?_nil]
    have : (((k, v) : String × Val).1 == k') = false := by simp [Ne.symm h]
    rw [this]
    rfl

theorem getField_removeField_same (o : Obj) (k : String) :
    getField (removeField o k) k = none := by
  unfold getField removeField
  rw [find?_filter_same]
  rfl

theorem getField_removeField_other (o : Obj) (k k' : String) (h : k' ≠ k) :
    getField (removeField o k) k' = getField o k' := by
  unfold getField removeField
  rw [find?_filter_ne o k k' h]

theorem getField_setFieldOpt_same (o : Obj) (k : String) (v : Option Val) :
    getField (setFieldOpt o k v) k = v := by
  cases v with
  | none => exact getField_removeField_same o k
  | some v => exact getField_setField_same o k v

theorem getField_setFieldOpt_other (o : Obj) (k k' : String) (v : Option Val) (h : k' ≠ k) :
    getField (setFieldOpt o k v) k' = getField o k' := by
  cases v with
  | none => exact getField_removeField_other o k k' h
  | some v => exact getField_setField_other o k k' v h

/-! ### C4: non-destructive completion merge -/

/-- C4: the completion merge replaces the located exercise by the union
of all previous fields with the four completion fields overwritten:
every other property is preserved, `completed` becomes `true`,
`lastCompletedAt`/`lastCompletedDate` get the timestamp/effective date,
and `completionNotes` is the new notes when truthy, else the previous
value. -/
theorem completeMerge_nonDestructive (original : Obj) (nowIso effectiveDate : String)
    (notes : Option Val) (k : String)
    (hk1 : k ≠ "completed") (hk2 : k ≠ "lastCompletedAt")
    (hk3 : k ≠ "lastCompletedDate") (hk4 : k ≠ "completionNotes") :
    getField (completeMergeExercise original nowIso effectiveDate notes) k = getField original k ∧
    getField (completeMergeExercise original nowIso effectiveDate notes) "completed"
      = some (Val.vBool true) ∧
    getField (completeMergeExercise original nowIso effectiveDate notes) "lastCompletedAt"
      = some (Val.vStr nowIso) ∧
    getField (completeMergeExercise original nowIso effectiveDate notes) "lastCompletedDate"
      = some (Val.vStr effectiveDate) ∧
    (truthyOpt notes = false →
      getField (completeMergeExercise original nowIso effectiveDate notes) "completionNotes"
        = getField original "completionNotes") ∧
    (truthyOpt notes = true →
      getField (completeMergeExercise original nowIso effectiveDate notes) "completionNotes"
        = notes) := by
  unfold completeMergeExercise
  refine ⟨?_, ?_, ?_, ?_, ?_, ?_⟩
  · rw [getField_setFieldOpt_other _ _ _ _ hk4, getField_setField_other _ _ _ _ hk3,
      getField_setField_other _ _ _ _ hk2, getField_setField_other _ _ _ _ hk1]
  · rw [getField_setFieldOpt_other _ _ _ _ (by decide), getField_setField_other _ _ _ _ (by decide),
      getField_setField_other _ _ _ _ (by decide), getField_setField_same]
  · rw [getField_setFieldOpt_other _ _ _ _ (by decide), getField_setField_other _ _ _ _ (by decide),
      getField_setField_same]
  · rw [getField_setFieldOpt_other _ _ _ _ (by decide), getField_setField_same]
  · intro hn
    rw [getField_setFieldOpt_same]
    unfold jsOr
    rw [if_neg (by simp [hn])]
  · intro hn
    rw [getField_setFieldOpt_same]
    unfold jsOr
    rw [if_pos (by simp [hn])]

/-- C4 (witness): completing the `{name: "Squats"}` exercise (no notes)
on 2024-03-02 preserves `name` and sets the four completion fields. -/
theorem completeMerge_nonDestructive_witness :
    getField (completeMergeExercise squatsExercise "t0" "2024-03-02" none) "name"
        = some (Val.vStr "Squats") ∧
    getField (completeMergeExercise squatsExercise "t0" "2024-03-02" none) "completed"
        = some (Val.vBool true) := by
  have h := completeMerge_nonDestructive squatsExercise "t0" "2024-03-02" none "name"
    (by decide) (by decide) (by decide) (by decide)
  exact ⟨h.1.trans (by decide), h.2.1⟩

/-! ### C5: correlation id and journal idempotence of the complete route -/

theorem correlationId_ne_empty (a b c : String) : correlationId a b c ≠ "" := by
  unfold correlationId
  intro h
  have hl : ("program:" ++ a ++ ":workout:" ++ b ++ ":date:" ++ c).length = 0 := by
    rw [h]
    rfl
  simp only [String.length_append] at hl
  have h8 : "program:".length = 8 := rfl
  omega

/-- C5: the complete route's journal payload carries the correlation id
`program:<programId>:workout:<key>:date:<effectiveDate>` as its
`externalId`; two runs for the same program, exercise and date build the
same correlation id (whatever their timestamps, notes and generated ids),
so the second journal append is a no-op and exactly one record with that
correlation id exists afterwards. -/
theorem completeRoute_journal_idempotent (cal : CalendarEntry) (pid sid d : String)
    (wIdx dIdx xIdx : Int) (on1 on2 : Option Val) (n1 n2 : String)
    (nt1 nt2 : Option Val) (f1 f2 : String)
    (h1 : ∀ w ∈ cal.workouts, truthyOpt w.externalId = true →
      jsStringOpt w.externalId ≠ correlationId pid sid d)
    (h2 : ∀ w ∈ cal.workouts, truthyOpt w.externalId = false → jsStringOpt w.id ≠ f1) :
    (completeCalendarPayload pid sid d wIdx dIdx xIdx on1 n1 nt1).externalId
      = (completeCalendarPayload pid sid d wIdx dIdx xIdx on2 n2 nt2).externalId ∧
    (completeCalendarPayload pid sid d wIdx dIdx xIdx on1 n1 nt1).externalId
      = some (Val.vStr (correlationId pid sid d)) ∧
    addWorkoutToCalendar
        (addWorkoutToCalendar cal (completeCalendarPayload pid sid d wIdx dIdx xIdx on1 n1 nt1) f1)
        (completeCalendarPayload pid sid d wIdx dIdx xIdx on2 n2 nt2) f2
      = addWorkoutToCalendar cal (completeCalendarPayload pid sid d wIdx dIdx xIdx on1 n1 nt1) f1 ∧
    ((addWorkoutToCalendar
        (addWorkoutToCalendar cal (completeCalendarPayload pid sid d wIdx dIdx xIdx on1 n1 nt1) f1)
        (completeCalendarPayload pid sid d wIdx dIdx xIdx on2 n2 nt2) f2).workouts.countP
      (fun w => w.externalId == some (Val.vStr (correlationId pid sid d)))) = 1 := by
  have htr : truthyOpt (some (Val.vStr (correlationId pid sid d))) = true := by
    simp [truthyOpt, truthyVal, correlationId_ne_empty]
  have hp1e : (completeCalendarPayload pid sid d wIdx dIdx xIdx on1 n1 nt1).externalId
      = some (Val.vStr (correlationId pid sid d)) := rfl
  have hp2e : (completeCalendarPayload pid sid d wIdx dIdx xIdx on2 n2 nt2).externalId
      = some (Val.vStr (correlationId pid sid d)) := rfl
  have hq1 : withResolvedId (completeCalendarPayload pid sid d wIdx dIdx xIdx on1 n1 nt1) f1
      = { completeCalendarPayload pid sid d wIdx dIdx xIdx on1 n1 nt1 with
          id := some (Val.vStr f1) } := rfl
  have hany1 : cal.workouts.any
      (fun w => isSameEntry (withResolvedId (completeCalendarPayload pid sid d wIdx dIdx xIdx on1 n1 nt1) f1) w)
      = false := by
    rw [List.any_eq_false]
    intro w hw
    simp only [Bool.not_eq_true]
    unfold isSameEntry
    by_cases hwe : truthyOpt w.externalId
    · rw [if_pos (by rw [hq1]; simp [hp1e, htr, hwe])]
      have := h1 w hw hwe
      rw [hq1]
      simp only [hp1e]
      exact beq_eq_false_iff_ne.mpr (by simpa [jsStringOpt, jsStringVal] using this)
    · rw [if_neg (by simp [Bool.not_eq_true] at hwe; simp [hwe])]
      have := h2 w hw (by simpa using hwe)
      rw [hq1]
      exact beq_eq_false_iff_ne.mpr (by simpa [jsStringOpt, jsStringVal] using this)
  have hfirst : addWorkoutToCalendar cal (completeCalendarPayload pid sid d wIdx dIdx xIdx on1 n1 nt1) f1
      = { cal with workouts := cal.workouts ++
          [withResolvedId (completeCalendarPayload pid sid d wIdx dIdx xIdx on1 n1 nt1) f1] } := by
    unfold addWorkoutToCalendar
    rw [hany1]
    rfl
  have hmatch : isSameEntry
      (withResolvedId (completeCalendarPayload pid sid d wIdx dIdx xIdx on2 n2 nt2) f2)
      (withResolvedId (completeCalendarPayload pid sid d wIdx dIdx xIdx on1 n1 nt1) f1) = true := by
    unfold isSameEntry
    rw [if_pos (by simp [withResolvedId, hp1e, hp2e, htr])]
    simp [withResolvedId, hp1e, hp2e]
  have hsecond : addWorkoutToCalendar
      { cal with workouts := cal.workouts ++
          [withResolvedId (completeCalendarPayload pid sid d wIdx dIdx xIdx on1 n1 nt1) f1] }
      (completeCalendarPayload pid sid d wIdx dIdx xIdx on2 n2 nt2) f2
      = { cal with workouts := cal.workouts ++
          [withResolvedId (completeCalendarPayload pid sid d wIdx dIdx xIdx on1 n1 nt1) f1] } := by
    unfold addWorkoutToCalendar
    rw [if_pos (by simp [List.any_append, hmatch])]
  refine ⟨hp1e.trans hp2e.symm, hp1e, ?_, ?_⟩
  · rw [hfirst, hsecond]
  · rw [hfirst, hsecond]
    show (cal.workouts ++ [withResolvedId (completeCalendarPayload pid sid d wIdx dIdx xIdx on1 n1 nt1) f1]).countP
      (fun w => w.externalId == some (Val.vStr (correlationId pid sid d))) = 1
    rw [List.countP_append, List.countP_eq_zero.mpr ?zeroPart]
    case zeroPart =>
      intro w hw hbe
      have hwe : w.externalId = some (Val.vStr (correlationId pid sid d)) := by
        simpa using hbe
      exact h1 w hw (by rw [hwe]; exact htr) (by rw [hwe]; rfl)
    simp [List.countP_cons, hq1, hp1e]

/-- C5 (witness): two completions of exercise `w:0-1-0` of program `p1`
on 2024-03-02 against an empty journal entry leave exactly one record
with the correlation id. -/
theorem completeRoute_journal_idempotent_witness :
    ((addWorkoutToCalendar
        (addWorkoutToCalendar emptyEntry
          (completeCalendarPayload "p1" "w:0-1-0" "2024-03-02" 0 1 0 (some (Val.vStr "Squats")) "t1" none) "u1")
        (completeCalendarPayload "p1" "w:0-1-0" "2024-03-02" 0 1 0 (some (Val.vStr "Squats")) "t2" none) "u2").workouts.countP
      (fun w => w.externalId == some (Val.vStr (correlationId "p1" "w:0-1-0" "2024-03-02")))) = 1 :=
  (completeRoute_journal_idempotent emptyEntry "p1" "w:0-1-0" "2024-03-02" 0 1 0
    (some (Val.vStr "Squats")) (some (Val.vStr "Squats")) "t1" "t2" none none "u1" "u2"
    (by intro w hw; simp [emptyEntry] at hw)
    (by intro w hw; simp [emptyEntry] at hw)).2.2.2

/-! ### C3: the program locator's NotFound characterization -/

theorem numEq_true_iff (x y : Option Int) :
    numEq x y = true ↔ ∃ v, x = some v ∧ y = some v := by
  cases x with
  | none => simp [numEq]
  | some a =>
    cases y with
    | none => simp [numEq]
    | some b =>
      simp only [numEq, beq_iff_eq, Option.some.injEq]
      constructor
      · intro h
        exact ⟨a, rfl, h.symm⟩
      · rintro ⟨v, h1, h2⟩
        exact h1.trans h2.symm

theorem jsIndex_eq_none (ws : List Obj) (xi : Option Int) :
    jsIndex ws xi = none ↔
      (xi = none ∨ ∃ i, xi = some i ∧ (i < 0 ∨ ws.length ≤ i.toNat)) := by
  cases xi with
  | none => simp [jsIndex]
  | some i =>
    simp only [jsIndex]
    by_cases hi : i < 0
    · simp [hi]
    · simp [hi, List.get?_eq_none]

theorem jsIndex_eq_some {ws : List Obj} {xi : Option Int} {w : Obj}
    (h : jsIndex ws xi = some w) :
    ∃ i, xi = some i ∧ ¬i < 0 ∧ ws.get? i.toNat = some w := by
  cases xi with
  | none => simp [jsIndex] at h
  | some i =>
    simp only [jsIndex] at h
    by_cases hi : i < 0
    · rw [if_pos hi] at h
      exact absurd h (by simp)
    · rw [if_neg hi] at h
      exact ⟨i, rfl, hi, h⟩

/-- C3: `findWorkoutByPathOrKey` returns NotFound (`null`) exactly in the
spec's enumerated cases, and on success the returned `workoutId` is the
key re-encoded from the three resolved indices. -/
theorem locate_notFound_iff (pj : Option (List WeekObj)) (args : LocatorArgs) :
    (findWorkoutByPathOrKey pj args = none ↔ locateNotFound pj args) ∧
    (∀ loc, findWorkoutByPathOrKey pj args = some loc →
      loc.workoutId = buildWorkoutKey loc.weekIndex loc.dayIndex loc.workoutIndex) := by
  cases pj with
  | none =>
    refine ⟨by simp [findWorkoutByPathOrKey, locateNotFound], ?_⟩
    intro loc h
    simp [findWorkoutByPathOrKey] at h
  | some weeks =>
    cases hwk : weeks.find? (fun wk => numEq wk.weekIndex (resolveIndices args).1) with
    | none =>
      have hfw : findWorkoutByPathOrKey (some weeks) args = none := by
        simp only [findWorkoutByPathOrKey, hwk]
      refine ⟨?_, ?_⟩
      · rw [hfw]
        simp only [locateNotFound]
        constructor
        · intro _
          left
          intro wk hmem
          have h := List.find?_eq_none.mp hwk wk hmem
          simpa using h
        · intro _
          trivial
      · intro loc h
        rw [hfw] at h
        exact absurd h (by simp)
    | some week =>
      have hwmem : week ∈ weeks := List.mem_of_find?_eq_some hwk
      have hwp : numEq week.weekIndex (resolveIndices args).1 = true := by
        simpa using List.find?_some hwk
      cases hdy : week.days with
      | none =>
        have hfw : findWorkoutByPathOrKey (some weeks) args = none := by
          simp only [findWorkoutByPathOrKey, hwk, hdy]
        refine ⟨?_, ?_⟩
        · rw [hfw]
          simp only [locateNotFound]
          exact ⟨fun _ => Or.inr ⟨week, hwk, Or.inl hdy⟩, fun _ => by trivial⟩
        · intro loc h
          rw [hfw] at h
          exact absurd h (by simp)
      | some days =>
        cases hd : days.find? (fun d => numEq d.dayIndex (resolveIndices args).2.1) with
        | none =>
          have hfw : findWorkoutByPathOrKey (some weeks) args = none := by
            simp only [findWorkoutByPathOrKey, hwk, hdy, hd]
          refine ⟨?_, ?_⟩
          · rw [hfw]
            simp only [locateNotFound]
            refine ⟨fun _ => Or.inr ⟨week, hwk, Or.inr ⟨days, hdy, Or.inl ?_⟩⟩, fun _ => by trivial⟩
            intro d hmem
            have h := List.find?_eq_none.mp hd d hmem
            simpa using h
          · intro loc h
            rw [hfw] at h
            exact absurd h (by simp)
        | some day =>
          have hdmem : day ∈ days := List.mem_of_find?_eq_some hd
          have hdp : numEq day.dayIndex (resolveIndices args).2.1 = true := by
            simpa using List.find?_some hd
          cases hws : day.workouts with
          | none =>
            have hfw : findWorkoutByPathOrKey (some weeks) args = none := by
              simp only [findWorkoutByPathOrKey, hwk, hdy, hd, hws]
            refine ⟨?_, ?_⟩
            · rw [hfw]
              simp only [locateNotFound]
              exact ⟨fun _ => Or.inr ⟨week, hwk, Or.inr ⟨days, hdy,
                Or.inr ⟨day, hd, Or.inl hws⟩⟩⟩, fun _ => by trivial⟩
            · intro loc h
              rw [hfw] at h
              exact absurd h (by simp)
          | some ws =>
            cases hjs : jsIndex ws (resolveIndices args).2.2 with
            | none =>
              have hfw : findWorkoutByPathOrKey (some weeks) args = none := by
                simp only [findWorkoutByPathOrKey, hwk, hdy, hd, hws, hjs]
              refine ⟨?_, ?_⟩
              · rw [hfw]
                simp only [locateNotFound]
                exact ⟨fun _ => Or.inr ⟨week, hwk, Or.inr ⟨days, hdy,
                  Or.inr ⟨day, hd, Or.inr ⟨ws, hws, (jsIndex_eq_none ws _).mp hjs⟩⟩⟩⟩,
                  fun _ => by trivial⟩
              · intro loc h
                rw [hfw] at h
                exact absurd h (by simp)
            | some w =>
              obtain ⟨a, hwka, hr1⟩ := (numEq_true_iff _ _).mp hwp
              obtain ⟨b, hdyb, hr2⟩ := (numEq_true_iff _ _).mp hdp
              obtain ⟨i, hxi, hneg, hget⟩ := jsIndex_eq_some hjs
              rw [hr1] at hwk hwp
              rw [hr2] at hd hdp
              rw [hxi] at hjs
              have hfw : findWorkoutByPathOrKey (some weeks) args = some
                  { week := week, day := day, workout := w,
                    weekIndex := a, dayIndex := b, workoutIndex := i,
                    workoutId := buildWorkoutKey a b i } := by
                simp only [findWorkoutByPathOrKey, hr1, hr2, hxi, hwk, hdy, hd, hws, hjs]
              refine ⟨?_, ?_⟩
              · rw [hfw]
                constructor
                · intro h
                  exact absurd h (by simp)
                · intro hnf
                  exfalso
                  simp only [locateNotFound] at hnf
                  rw [hr1, hr2, hxi] at hnf
                  rcases hnf with hall | ⟨week', hfind', hrest⟩
                  · have hf := hall week hwmem
                    rw [hf] at hwp
                    exact absurd hwp (by decide)
                  · rw [hwk] at hfind'
                    injection hfind' with he
                    subst he
                    rcases hrest with hnone | ⟨days', hdays', hrest2⟩
                    · rw [hdy] at hnone
                      exact absurd hnone (by simp)
                    · rw [hdy] at hdays'
                      injection hdays' with he2
                      subst he2
                      rcases hrest2 with hall2 | ⟨day', hfind2, hrest3⟩
                      · have hf := hall2 day hdmem
                        rw [hf] at hdp
                        exact absurd hdp (by decide)
                      · rw [hd] at hfind2
                        injection hfind2 with he3
                        subst he3
                        rcases hrest3 with hnone2 | ⟨ws', hws', hrest4⟩
                        · rw [hws] at hnone2
                          exact absurd hnone2 (by simp)
                        · rw [hws] at hws'
                          injection hws' with he4
                          subst he4
                          rcases hrest4 with hxin | ⟨i', hxi', hoob⟩
                          · exact absurd hxin (by simp)
                          · injection hxi' with he5
                            subst he5
                            rcases hoob with hlt | hge
                            · exact hneg hlt
                            · obtain ⟨hlen, _⟩ := List.get?_eq_some.mp hget
                              omega
              · intro loc h
                rw [hfw] at h
                injection h with he
                subst he
                rfl

/-- C3 (witness): locating `w:0-1-0` in the Scenario-C program succeeds
and the returned key equals the re-encoded resolved indices; the same
day with position 5 is NotFound. -/
theorem locate_notFound_iff_witness :
    findWorkoutByPathOrKey squatsProgram squatsArgs = some squatsLocated ∧
    squatsLocated.workoutId
      = buildWorkoutKey squatsLocated.weekIndex squatsLocated.dayIndex squatsLocated.workoutIndex ∧
    findWorkoutByPathOrKey squatsProgram
      { weekIndex := some 0, dayIndex := some 1, workoutIndex := some 5, workoutId := none } = none :=
  ⟨by decide, (locate_notFound_iff squatsProgram squatsArgs).2 squatsLocated (by decide), by decide⟩

/-! ### Helper lemmas: date order and the insertion sort -/

theorem dateLe_total (a b : DateD) : dateLe a b = true ∨ dateLe b a = true := by
  simp only [dateLe, Bool.or_eq_true, Bool.and_eq_true, decide_eq_true_eq, beq_iff_eq]
  omega

theorem dateLe_trans {a b c : DateD} (h1 : dateLe a b = true) (h2 : dateLe b c = true) :
    dateLe a c = true := by
  simp only [dateLe, Bool.or_eq_true, Bool.and_eq_true, decide_eq_true_eq, beq_iff_eq] at *
  omega

theorem mem_insertByDate (r x : CalendarRow) (l : List CalendarRow) :
    x ∈ insertByDate r l ↔ x = r ∨ x ∈ l := by
  induction l with
  | nil => simp [insertByDate]
  | cons y ys ih =>
    simp only [insertByDate]
    by_cases h : dateLe r.date y.date
    · rw [if_pos h]
      exact List.mem_cons
    · rw [if_neg h]
      rw [List.mem_cons, ih, List.mem_cons]
      tauto

theorem pairwise_insertByDate (r : CalendarRow) (l : List CalendarRow)
    (h : l.Pairwise (fun x y => dateLe x.date y.date = true)) :
    (insertByDate r l).Pairwise (fun x y => dateLe x.date y.date = true) := by
  induction l with
  | nil => simp [insertByDate]
  | cons y ys ih =>
    rcases List.pairwise_cons.mp h with ⟨hy, hys⟩
    simp only [insertByDate]
    by_cases hle : dateLe r.date y.date
    · rw [if_pos hle]
      refine List.pairwise_cons.mpr ⟨?_, h⟩
      intro z hz
      rcases List.mem_cons.mp hz with rfl | hz'
      · exact hle
      · exact dateLe_trans hle (hy z hz')
    · rw [if_neg hle]
      refine List.pairwise_cons.mpr ⟨?_, ih hys⟩
      intro z hz
      rcases (mem_insertByDate r z ys).mp hz with rfl | hz'
      · rcases dateLe_total z.date y.date with h' | h'
        · exact absurd h' hle
        · exact h'
      · exact hy z hz'

theorem perm_insertByDate (r : CalendarRow) (l : List CalendarRow) :
    (insertByDate r l).Perm (r :: l) := by
  induction l with
  | nil => exact List.Perm.refl _
  | cons y ys ih =>
    simp only [insertByDate]
    by_cases hle : dateLe r.date y.date
    · rw [if_pos hle]
    · rw [if_neg hle]
      exact List.Perm.trans (List.Perm.cons y ih) (List.Perm.swap r y ys)

theorem pairwise_sortByDate (l : List CalendarRow) :
    (sortByDate l).Pairwise (fun x y => dateLe x.date y.date = true) := by
  induction l with
  | nil => simp [sortByDate]
  | cons x xs ih => exact pairwise_insertByDate x (sortByDate xs) ih

theorem perm_sortByDate (l : List CalendarRow) : (sortByDate l).Perm l := by
  induction l with
  | nil => exact List.Perm.refl _
  | cons x xs ih =>
    exact List.Perm.trans (perm_insertByDate x (sortByDate xs)) (List.Perm.cons x ih)

/-! ### C6: selector priority, month resolution and date ordering -/

/-- C6: the calendar query resolves its selector in priority order —
exact date, then inclusive `[from, to]`, then `(month, year)` resolved to
the 1st through the last calendar day of that month (via `daysInMonth`,
which accounts for variable month length and leap years), else the
current calendar month — and returns the matching entries ordered by date
ascending (a permutation of the filtered store, pairwise sorted). -/
theorem queryJournal_selector_priority (store : List CalendarRow) (q : JournalQuery)
    (today : DateD) (pm dm : Option MetaR) :
    (queryJournal store q today pm dm).Pairwise (fun x y => dateLe x.date y.date = true) ∧
    (queryJournal store q today pm dm).Perm
      ((store.filter (fun r => matchesWhere (resolveDateWhere q today) r.date)).map
        (enrichEntry q pm dm)) ∧
    (∀ d, q.dateQ = some d →
      ∀ x, matchesWhere (resolveDateWhere q today) x = (x == d)) ∧
    (∀ f t, q.dateQ = none → q.fromQ = some f → q.toQ = some t →
      ∀ x, matchesWhere (resolveDateWhere q today) x = (dateLe f x && dateLe x t)) ∧
    (∀ m y, q.dateQ = none → (q.fromQ = none ∨ q.toQ = none) →
      q.monthQ = some m → q.yearQ = some y →
      ∀ x, matchesWhere (resolveDateWhere q today) x
        = (dateLe ⟨y, m, 1⟩ x && dateLe x ⟨y, m, daysInMonth y m⟩)) ∧
    (q.dateQ = none → (q.fromQ = none ∨ q.toQ = none) →
      (q.monthQ = none ∨ q.yearQ = none) →
      ∀ x, matchesWhere (resolveDateWhere q today) x
        = (dateLe ⟨today.year, today.month, 1⟩ x
            && dateLe x ⟨today.year, today.month, daysInMonth today.year today.month⟩)) := by
  obtain ⟨dq, fq, tq, mq, yq, oc, ip, idl, ifl⟩ := q
  refine ⟨?_, ?_, ?_, ?_, ?_, ?_⟩
  · have h := pairwise_sortByDate
      (store.filter (fun r => matchesWhere (resolveDateWhere ⟨dq, fq, tq, mq, yq, oc, ip, idl, ifl⟩ today) r.date))
    simp only [queryJournal]
    rw [List.pairwise_map]
    exact h
  · simp only [queryJournal]
    exact List.Perm.map _ (perm_sortByDate _)
  · intro d hd x
    subst hd
    rfl
  · intro f t hd hf ht x
    subst hd
    subst hf
    subst ht
    rfl
  · intro m y hd hft hm hy x
    subst hd
    subst hm
    subst hy
    rcases hft with h | h
    · subst h
      cases tq <;> rfl
    · subst h
      cases fq <;> rfl
  · intro hd hft hmy x
    subst hd
    have hmatch : resolveDateWhere ⟨none, fq, tq, mq, yq, oc, ip, idl, ifl⟩ today
        = DateWhere.between ⟨today.year, today.month, 1⟩
            ⟨today.year, today.month, daysInMonth today.year today.month⟩ := by
      rcases hft with hf | ht2
      · rcases hmy with hm2 | hy2
        · subst hf
          subst hm2
          cases tq <;> cases yq <;> rfl
        · subst hf
          subst hy2
          cases tq <;> cases mq <;> rfl
      · rcases hmy with hm2 | hy2
        · subst ht2
          subst hm2
          cases fq <;> cases yq <;> rfl
        · subst ht2
          subst hy2
          cases fq <;> cases mq <;> rfl
    rw [hmatch]
    rfl

/-- C6 (witness): for `month=3, year=2024` the resolved filter is the
inclusive range 2024-03-01 through 2024-03-31, and the query's result on
the sample store is date-sorted. -/
theorem queryJournal_selector_priority_witness :
    matchesWhere (resolveDateWhere sampleQueryMarch ⟨2024, 5, 15⟩) ⟨2024, 3, 5⟩
      = (dateLe ⟨2024, 3, 1⟩ ⟨2024, 3, 5⟩ && dateLe ⟨2024, 3, 5⟩ ⟨2024, 3, 31⟩) ∧
    (queryJournal sampleStore sampleQueryMarch ⟨2024, 5, 15⟩ none none).Pairwise
      (fun x y => dateLe x.date y.date = true) :=
  ⟨by
    have h := (queryJournal_selector_priority sampleStore sampleQueryMarch ⟨2024, 5, 15⟩
      none none).2.2.2.2.1 3 2024 rfl (Or.inl rfl) rfl rfl ⟨2024, 3, 5⟩
    simpa using h,
   (queryJournal_selector_priority sampleStore sampleQueryMarch ⟨2024, 5, 15⟩ none none).1⟩

/-! ### C7: onlyCompleted filters workouts but not flags -/

/-- C7: with flags requested, turning `onlyCompleted` on filters the
returned `workouts` to `completed === true` records (before enrichment)
but leaves `flags.hasDaily`/`hasProgram`/`hasFood` exactly as computed
from the unfiltered workout and food sets. -/
theorem onlyCompleted_filters_workouts_not_flags (row : CalendarRow) (q : JournalQuery)
    (pm dm : Option MetaR) (hfl : q.includeFlags = true) :
    (enrichEntry { q with onlyCompleted := true } pm dm row).flags
      = (enrichEntry { q with onlyCompleted := false } pm dm row).flags ∧
    (enrichEntry { q with onlyCompleted := true } pm dm row).flags
      = some { hasDaily := row.workouts.any (fun w => w.source == some (Val.vStr "daily")),
               hasProgram := row.workouts.any (fun w => w.source == some (Val.vStr "program")),
               hasFood := decide (0 < row.foods.length) } ∧
    (enrichEntry { q with onlyCompleted := true } pm dm row).workouts
      = (row.workouts.filter (fun w => w.completed == some (Val.vBool true))).map
          (enrichWorkout q.includeProgram q.includeDaily pm dm) ∧
    (enrichEntry { q with onlyCompleted := false } pm dm row).workouts
      = row.workouts.map (enrichWorkout q.includeProgram q.includeDaily pm dm) := by
  refine ⟨?_, ?_, ?_, ?_⟩ <;> simp [enrichEntry, hfl]

/-- C7 (witness): on the sample 2024-03-05 row (one completed daily
workout, one incomplete program workout, one food) the flags agree with
and without `onlyCompleted`, while the filtered workout list shrinks. -/
theorem onlyCompleted_filters_workouts_not_flags_witness :
    (enrichEntry { sampleQueryMarch with onlyCompleted := true } none none sampleRowMar5).flags
      = (enrichEntry { sampleQueryMarch with onlyCompleted := false } none none sampleRowMar5).flags :=
  (onlyCompleted_filters_workouts_not_flags sampleRowMar5 sampleQueryMarch none none rfl).1

end Fitness
